import Mathlib

/-!
Verification development for a small chat-message library consisting of
`ChatMessage` (chat_message.py), `MessageStore` (message_store.py) and
`MessageProcessor` (message_processor.py).

Python dictionaries are modelled as insertion-ordered association lists
(`List (κ × β)`); `dict.get`, `dict.__setitem__` and `dict.get(k, d)`
become `dictGet`, `dictSet`, `dictGetD`.  Python `list[-limit:]` slicing
is modelled by `pySliceFrom` with CPython clamping semantics, `str.split()`
by `pySplit` (split on whitespace runs, dropping empty tokens), the `in`
substring operator by `pyStrIn`, `str.lower()` by `pyLower`, and
float division in the statistics by exact `Rat` division.  Message
timestamps play no role in any of the verified operations and are omitted
from the model; metadata values are modelled by the single value shape the
code ever stores (the `"analysis"` mapping).
-/

/-- Lookup in an insertion-ordered association list: Python `dict[k]` /
`dict.get(k)` (first matching key wins; lists built only via `dictSet`
have distinct keys). -/
def dictGet [DecidableEq κ] : List (κ × β) → κ → Option β
  | [], _ => none
  | (k, v) :: d, key => if k = key then some v else dictGet d key

/-- Python `dict.get(k, dflt)`. -/
def dictGetD [DecidableEq κ] (d : List (κ × β)) (key : κ) (dflt : β) : β :=
  (dictGet d key).getD dflt

/-- Python `dict[k] = v`: replace the value at an existing key in place
(keeping its position), otherwise append the new binding at the end. -/
def dictSet [DecidableEq κ] : List (κ × β) → κ → β → List (κ × β)
  | [], key, val => [(key, val)]
  | (k, v) :: d, key, val =>
      if k = key then (k, val) :: d else (k, v) :: dictSet d key val

/-- CPython semantics of `xs[a:]` for an arbitrary integer `a`: a negative
start counts from the end and is clamped at 0, a nonnegative start is
clamped at `len(xs)`. -/
def pySliceFrom (xs : List α) (a : Int) : List α :=
  let n : Int := xs.length
  let start : Int :=
    if a < 0 then (if n + a < 0 then 0 else n + a)
    else (if a ≤ n then a else n)
  xs.drop start.toNat

/-- Helper for `pySplit`: scan the characters, `acc` holding the current
(reversed) token; whitespace ends the token, empty tokens are dropped. -/
def splitWsAux : List Char → List Char → List String
  | [], acc => if acc = [] then [] else [String.mk acc.reverse]
  | c :: cs, acc =>
      if c.isWhitespace then
        if acc = [] then splitWsAux cs []
        else String.mk acc.reverse :: splitWsAux cs []
      else splitWsAux cs (c :: acc)

/-- Python `str.split()` with no arguments: split on runs of whitespace
and discard empty tokens (the tokens are the maximal whitespace-free
segments of the string). -/
def pySplit (s : String) : List String :=
  splitWsAux s.data []

/-- Python `str.lower()`: lower-case each character. -/
def pyLower (s : String) : String :=
  String.mk (s.data.map Char.toLower)

/-- Membership of `needle` as a contiguous segment of `hay`
(Python `needle in hay` for sequences). -/
def pyIn [DecidableEq α] : List α → List α → Bool
  | needle, [] => needle = []
  | needle, b :: hay => needle.isPrefixOf (b :: hay) || pyIn needle hay

/-- Python `needle in hay` on strings: substring containment. -/
def pyStrIn (needle hay : String) : Bool :=
  pyIn needle.data hay.data

/-- The `"analysis"` mapping computed by `MessageProcessor.process_message`:
`{"word_count": ..., "char_count": ..., "has_question": ...}`. -/
structure Analysis where
  word_count : Nat
  char_count : Nat
  has_question : Bool
deriving Repr, DecidableEq

/-- `ChatMessage` (chat_message.py): content, sender, platform and a
mutable metadata dictionary (initially empty; the only key the verified
code writes is `"analysis"`).  The construction-time timestamp is omitted:
no verified operation reads it. -/
structure ChatMessage where
  content : String
  sender : String
  platform : String
  metadata : List (String × Analysis)
deriving Repr, DecidableEq

/-- `ChatMessage.add_metadata(key, value)`: `self.metadata[key] = value`. -/
def ChatMessage.add_metadata (m : ChatMessage) (key : String) (value : Analysis) :
    ChatMessage :=
  { m with metadata := dictSet m.metadata key value }

/-- `MessageStore` (message_store.py): the global insertion-ordered list
and the per-platform dictionary of lists. -/
structure MessageStore where
  messages : List ChatMessage
  platforms : List (String × List ChatMessage)
deriving Repr, DecidableEq

/-- `MessageStore()` constructor: both containers empty. -/
def MessageStore.new : MessageStore :=
  { messages := [], platforms := [] }

/-- `MessageStore.add_message`: append to the global list; create the
platform's list on first use, then append to it. -/
def MessageStore.add_message (s : MessageStore) (message : ChatMessage) :
    MessageStore :=
  let platforms :=
    if (dictGet s.platforms message.platform).isSome then s.platforms
    else dictSet s.platforms message.platform []
  { messages := s.messages ++ [message],
    platforms := dictSet platforms message.platform
      (dictGetD platforms message.platform [] ++ [message]) }

/-- `MessageStore.get_messages(platform=None, limit=10)`: select the
platform's list when `platform` is truthy (Python's `if platform:` is
false both for `None` and for the empty string), the global list
otherwise, then return `messages[-limit:]`. -/
def MessageStore.get_messages (s : MessageStore) (platform : Option String)
    (limit : Int) : List ChatMessage :=
  let messages :=
    match platform with
    | some p => if p = "" then s.messages else dictGetD s.platforms p []
    | none => s.messages
  pySliceFrom messages (-limit)

/-- `MessageStore.search_messages(keyword)`: case-insensitive substring
filter over the full global list. -/
def MessageStore.search_messages (s : MessageStore) (keyword : String) :
    List ChatMessage :=
  s.messages.filter (fun msg => pyStrIn (pyLower keyword) (pyLower msg.content))

/-- The Python method `get_messages` as a state transformer: the body only
reads `self` and returns a slice, so the post-state is the receiver
unchanged. -/
def MessageStore.get_messages_call (s : MessageStore) (platform : Option String)
    (limit : Int) : List ChatMessage × MessageStore :=
  (s.get_messages platform limit, s)

/-- The Python method `search_messages` as a state transformer: read-only
body, post-state unchanged. -/
def MessageStore.search_messages_call (s : MessageStore) (keyword : String) :
    List ChatMessage × MessageStore :=
  (s.search_messages keyword, s)

/-- A store built by a sequence of `add_message` calls on a fresh store. -/
def buildStore (msgs : List ChatMessage) : MessageStore :=
  msgs.foldl MessageStore.add_message MessageStore.new

/-- `MessageProcessor` (message_processor.py): owns one `MessageStore`. -/
structure MessageProcessor where
  store : MessageStore
deriving Repr, DecidableEq

/-- `MessageProcessor()` constructor. -/
def MessageProcessor.new : MessageProcessor :=
  { store := MessageStore.new }

/-- `MessageProcessor.process_message`: compute the analysis dict, write it
into `message.metadata["analysis"]`, store the (mutated) message, return
the analysis.  State passing makes the mutation explicit: the result is
the returned analysis together with the updated processor. -/
def MessageProcessor.process_message (proc : MessageProcessor)
    (message : ChatMessage) : Analysis × MessageProcessor :=
  let analysis : Analysis :=
    { word_count := (pySplit message.content).length,
      char_count := message.content.length,
      has_question := pyStrIn "?" message.content }
  let message' := message.add_metadata "analysis" analysis
  (analysis, { proc with store := proc.store.add_message message' })

/-- `msg.metadata.get("analysis", {}).get("word_count", 0)`. -/
def metaWordCount (m : ChatMessage) : Nat :=
  match dictGet m.metadata "analysis" with
  | some a => a.word_count
  | none => 0

/-- One counting update `d[k] = d.get(k, 0) + 1` of the stats loop. -/
def bump (d : List (String × Nat)) (k : String) : List (String × Nat) :=
  dictSet d k (dictGetD d k 0 + 1)

/-- Values of the heterogeneous stats dictionary returned by
`get_conversation_stats`. -/
inductive StatValue where
  | nat (n : Nat)
  | counts (d : List (String × Nat))
  | rat (q : Rat)
deriving Repr, DecidableEq

/-- `MessageProcessor.get_conversation_stats`: read the store through
`get_messages()` (Python defaults `platform=None, limit=10`); on an empty
window return `{"message_count": 0}`; otherwise one loop accumulates the
platform counts, the sender counts and the running word total, and the
average is the true (float, here `Rat`) division of the total by the
window length. -/
def MessageProcessor.get_conversation_stats (proc : MessageProcessor) :
    List (String × StatValue) :=
  let messages := proc.store.get_messages none 10
  if messages = [] then [("message_count", StatValue.nat 0)]
  else
    let acc := messages.foldl
      (fun (st : List (String × Nat) × List (String × Nat) × Nat) msg =>
        (bump st.1 msg.platform, bump st.2.1 msg.sender,
          st.2.2 + metaWordCount msg))
      ([], [], 0)
    [("message_count", StatValue.nat messages.length),
     ("platform_counts", StatValue.counts acc.1),
     ("sender_counts", StatValue.counts acc.2.1),
     ("avg_word_count", StatValue.rat ((acc.2.2 : Rat) / (messages.length : Rat)))]

section DictLemmas

variable {κ β : Type} [DecidableEq κ]

lemma dictGet_dictSet_self (d : List (κ × β)) (k : κ) (v : β) :
    dictGet (dictSet d k v) k = some v := by
  induction d with
  | nil => simp [dictSet, dictGet]
  | cons e d ih =>
      obtain ⟨k1, v1⟩ := e
      by_cases h : k1 = k
      · simp [dictSet, dictGet, h]
      · simp [dictSet, dictGet, h, ih]

lemma dictGet_dictSet_ne (d : List (κ × β)) {k k' : κ} (v : β) (h : k ≠ k') :
    dictGet (dictSet d k v) k' = dictGet d k' := by
  induction d with
  | nil => simp [dictSet, dictGet, h]
  | cons e d ih =>
      obtain ⟨k1, v1⟩ := e
      by_cases h1 : k1 = k
      · subst h1
        simp [dictSet, dictGet, h]
      · by_cases h2 : k1 = k'
        · simp [dictSet, dictGet, h1, h2, Ne.symm h]
        · simp [dictSet, dictGet, h1, h2, ih]

lemma dictGet_eq_none (d : List (κ × β)) (k : κ) :
    dictGet d k = none ↔ k ∉ d.map Prod.fst := by
  induction d with
  | nil => simp [dictGet]
  | cons e d ih =>
      obtain ⟨k1, v1⟩ := e
      by_cases h : k1 = k
      · simp [dictGet, h]
      · simp [dictGet, h, ih, Ne.symm h]

lemma dictGet_entry (d : List (κ × β)) (hnd : (d.map Prod.fst).Nodup)
    {e : κ × β} (he : e ∈ d) : dictGet d e.1 = some e.2 := by
  induction d with
  | nil => simp at he
  | cons e1 d ih =>
      obtain ⟨k1, v1⟩ := e1
      simp only [List.map_cons, List.nodup_cons] at hnd
      rcases List.mem_cons.mp he with h | h
      · subst h
        simp [dictGet]
      · have hk : k1 ≠ e.1 := by
          intro hkk
          exact hnd.1 (hkk ▸ (List.mem_map.mpr ⟨e, h, rfl⟩))
        simp [dictGet, hk, ih hnd.2 h]

lemma dictSet_of_not_mem (d : List (κ × β)) (k : κ) (v : β)
    (h : k ∉ d.map Prod.fst) : dictSet d k v = d ++ [(k, v)] := by
  induction d with
  | nil => simp [dictSet]
  | cons e d ih =>
      obtain ⟨k1, v1⟩ := e
      simp only [List.map_cons, List.mem_cons, not_or] at h
      simp [dictSet, Ne.symm h.1, ih h.2]

lemma map_keyupdate_of_not_mem (d : List (κ × β)) (k : κ) (v : β)
    (h : k ∉ d.map Prod.fst) :
    d.map (fun e => if e.1 = k then (k, v) else e) = d := by
  induction d with
  | nil => simp
  | cons e d ih =>
      simp only [List.map_cons, List.mem_cons, not_or] at h
      simp [Ne.symm h.1, ih h.2]

lemma dictSet_of_mem (d : List (κ × β)) (k : κ) (v : β)
    (hm : k ∈ d.map Prod.fst) (hnd : (d.map Prod.fst).Nodup) :
    dictSet d k v = d.map (fun e => if e.1 = k then (k, v) else e) := by
  induction d with
  | nil => simp at hm
  | cons e d ih =>
      obtain ⟨k1, v1⟩ := e
      simp only [List.map_cons, List.nodup_cons] at hnd
      by_cases h : k1 = k
      · subst h
        simp [dictSet, map_keyupdate_of_not_mem d k1 v hnd.1]
      · rcases List.mem_cons.mp (List.map_cons Prod.fst _ d ▸ hm) with h1 | h1
        · exact absurd h1.symm h
        · simp [dictSet, h, ih h1 hnd.2]

lemma keys_dictSet (d : List (κ × β)) (k : κ) (v : β) :
    (dictSet d k v).map Prod.fst =
      if k ∈ d.map Prod.fst then d.map Prod.fst else d.map Prod.fst ++ [k] := by
  induction d with
  | nil => simp [dictSet]
  | cons e d ih =>
      obtain ⟨k1, v1⟩ := e
      by_cases h : k1 = k
      · subst h
        simp [dictSet]
      · by_cases h2 : k ∈ d.map Prod.fst
        · simp [dictSet, h, h2, ih, Ne.symm h]
        · simp [dictSet, h, h2, ih, Ne.symm h]

end DictLemmas

section SliceLemmas

variable {α : Type}

lemma pySliceFrom_nil (a : Int) : pySliceFrom ([] : List α) a = [] := by
  simp [pySliceFrom]

lemma pySliceFrom_neg (xs : List α) (limit : Int) (h : 0 < limit) :
    pySliceFrom xs (-limit) = xs.drop (xs.length - limit.toNat) := by
  simp only [pySliceFrom]
  split_ifs with h1 h2 h3
  · congr 1
    omega
  · congr 1
    omega
  · exact absurd (by omega : -limit < 0) h1
  · exact absurd (by omega : -limit < 0) h1

lemma pySliceFrom_zero (xs : List α) : pySliceFrom xs 0 = xs := by
  simp only [pySliceFrom]
  split_ifs with h1 h2 h3
  · exact absurd h1 (by omega)
  · exact absurd h1 (by omega)
  · rfl
  · exact absurd (by omega : (0 : Int) ≤ (xs.length : Int)) h3

end SliceLemmas

section SegmentLemmas

variable {α : Type} [DecidableEq α]

lemma isPrefixOf_iff_exists : ∀ (n h : List α),
    n.isPrefixOf h = true ↔ ∃ t, h = n ++ t
  | [], h => by simp [List.isPrefixOf]
  | a :: as, [] => by simp [List.isPrefixOf]
  | a :: as, b :: bs => by
      simp only [List.isPrefixOf, Bool.and_eq_true, beq_iff_eq,
        isPrefixOf_iff_exists as bs]
      constructor
      · rintro ⟨rfl, t, rfl⟩
        exact ⟨t, rfl⟩
      · rintro ⟨t, ht⟩
        injection ht with h1 h2
        exact ⟨h1.symm, t, h2⟩

lemma pyIn_iff : ∀ (n h : List α), pyIn n h = true ↔ ∃ s t, h = s ++ n ++ t
  | n, [] => by
      constructor
      · intro hp
        have : n = [] := by simpa [pyIn] using hp
        exact ⟨[], [], by simp [this]⟩
      · rintro ⟨s, t, hst⟩
        have : n = [] := by
          rcases List.append_eq_nil.mp hst.symm with ⟨h1, h2⟩
          rcases List.append_eq_nil.mp h1 with ⟨h3, h4⟩
          exact h4
        simp [pyIn, this]
  | n, b :: hay => by
      simp only [pyIn, Bool.or_eq_true, isPrefixOf_iff_exists,
        pyIn_iff n hay]
      constructor
      · rintro (⟨t, ht⟩ | ⟨s, t, hst⟩)
        · exact ⟨[], t, by simp [ht]⟩
        · exact ⟨b :: s, t, by simp [hst]⟩
      · rintro ⟨s, t, hst⟩
        cases s with
        | nil => exact Or.inl ⟨t, by simpa using hst⟩
        | cons s0 s' =>
            injection hst with h1 h2
            exact Or.inr ⟨s', t, h2⟩

lemma pyIn_singleton (a : α) (h : List α) : pyIn [a] h = true ↔ a ∈ h := by
  rw [pyIn_iff]
  constructor
  · rintro ⟨s, t, rfl⟩
    simp
  · intro hm
    rcases List.append_of_mem hm with ⟨s, t, rfl⟩
    exact ⟨s, t, by simp⟩

lemma pyStrIn_question (s : String) : pyStrIn "?" s = true ↔ '?' ∈ s.data := by
  have hq : "?".data = ['?'] := rfl
  rw [pyStrIn, hq]
  exact pyIn_singleton _ _

end SegmentLemmas

section StoreLemmas

lemma add_message_messages (s : MessageStore) (m : ChatMessage) :
    (s.add_message m).messages = s.messages ++ [m] := rfl

lemma foldl_add_message_messages : ∀ (msgs : List ChatMessage) (s : MessageStore),
    (msgs.foldl MessageStore.add_message s).messages = s.messages ++ msgs
  | [], s => by simp
  | m :: msgs, s => by
      rw [List.foldl_cons, foldl_add_message_messages msgs,
        add_message_messages]
      simp

lemma buildStore_messages (msgs : List ChatMessage) :
    (buildStore msgs).messages = msgs := by
  rw [buildStore, foldl_add_message_messages]
  rfl

lemma add_message_platforms_get (s : MessageStore) (m : ChatMessage) (p : String) :
    dictGetD (s.add_message m).platforms p [] =
      dictGetD s.platforms p [] ++ (if m.platform = p then [m] else []) := by
  simp only [MessageStore.add_message]
  by_cases hp : m.platform = p
  · subst hp
    rw [if_pos rfl]
    simp only [dictGetD, dictGet_dictSet_self, Option.getD_some]
    congr 1
    split_ifs with hs
    · rfl
    · rw [Option.not_isSome_iff_eq_none] at hs
      simp [dictGet_dictSet_self, hs]
  · rw [if_neg hp, List.append_nil]
    simp only [dictGetD]
    rw [dictGet_dictSet_ne _ _ hp]
    split_ifs with hs
    · rfl
    · rw [dictGet_dictSet_ne _ _ hp]

lemma foldl_add_message_platforms_get :
    ∀ (msgs : List ChatMessage) (s : MessageStore) (p : String),
    dictGetD ((msgs.foldl MessageStore.add_message s).platforms) p [] =
      dictGetD s.platforms p [] ++ msgs.filter (fun m => m.platform = p)
  | [], s, p => by simp
  | m :: msgs, s, p => by
      rw [List.foldl_cons, foldl_add_message_platforms_get msgs,
        add_message_platforms_get]
      by_cases hp : m.platform = p
      · simp [List.filter_cons, hp]
      · simp [List.filter_cons, hp]

lemma buildStore_platforms_get (msgs : List ChatMessage) (p : String) :
    dictGetD (buildStore msgs).platforms p [] =
      msgs.filter (fun m => m.platform = p) := by
  rw [buildStore, foldl_add_message_platforms_get]
  rfl

end StoreLemmas

/-- The keys of a list in order of first occurrence, relative to a set of
keys already seen. -/
def newFirsts (seen : List String) : List String → List String
  | [] => []
  | k :: ks => if k ∈ seen then newFirsts seen ks else k :: newFirsts (k :: seen) ks

/-- Specification-side counting dictionary: the distinct keys in order of
first occurrence, each paired with its number of occurrences. -/
def specCounts (ks : List String) : List (String × Nat) :=
  (newFirsts [] ks).map (fun k => (k, ks.count k))

section CountLemmas

lemma newFirsts_congr : ∀ (ks s1 s2 : List String),
    (∀ k, k ∈ s1 ↔ k ∈ s2) → newFirsts s1 ks = newFirsts s2 ks
  | [], _, _, _ => rfl
  | k :: ks, s1, s2, h => by
      by_cases hk : k ∈ s1
      · rw [newFirsts, if_pos hk, newFirsts, if_pos ((h k).mp hk),
          newFirsts_congr ks s1 s2 h]
      · rw [newFirsts, if_neg hk, newFirsts, if_neg (fun hx => hk ((h k).mpr hx))]
        congr 1
        refine newFirsts_congr ks _ _ (fun q => ?_)
        simp [h q]

lemma newFirsts_not_seen : ∀ (ks seen : List String) (k : String),
    k ∈ newFirsts seen ks → k ∉ seen
  | [], _, _, h => by simp [newFirsts] at h
  | k0 :: ks, seen, k, h => by
      by_cases hk : k0 ∈ seen
      · rw [newFirsts, if_pos hk] at h
        exact newFirsts_not_seen ks seen k h
      · rw [newFirsts, if_neg hk] at h
        rcases List.mem_cons.mp h with rfl | h
        · exact hk
        · intro hs
          exact newFirsts_not_seen ks (k0 :: seen) k h (List.mem_cons_of_mem _ hs)

lemma foldl_bump_eq : ∀ (ks : List String) (d : List (String × Nat)),
    (d.map Prod.fst).Nodup →
    ks.foldl bump d =
      d.map (fun e => (e.1, e.2 + ks.count e.1)) ++
        (newFirsts (d.map Prod.fst) ks).map (fun k => (k, ks.count k))
  | [], d, _ => by simp [newFirsts]
  | k0 :: ks, d, hnd => by
      rw [List.foldl_cons]
      by_cases hm : k0 ∈ d.map Prod.fst
      · have hkeys : (bump d k0).map Prod.fst = d.map Prod.fst := by
          rw [bump, keys_dictSet, if_pos hm]
        have hrec := foldl_bump_eq ks (bump d k0) (hkeys ▸ hnd)
        rw [hrec, hkeys]
        congr 1
        · rw [bump, dictSet_of_mem d k0 _ hm hnd, List.map_map]
          refine List.map_congr_left (fun e he => ?_)
          by_cases hek : e.1 = k0
          · have hget : dictGet d k0 = some e.2 := hek ▸ dictGet_entry d hnd he
            simp only [Function.comp_apply, hek, if_pos]
            rw [dictGetD, hget, Option.getD_some, List.count_cons_self]
            congr 1
            omega
          · simp only [Function.comp_apply]
            rw [if_neg hek]
            have hcnt : (k0 :: ks).count e.1 = ks.count e.1 :=
              List.count_cons_of_ne hek ks
            rw [hcnt]
        · rw [newFirsts, if_pos hm]
          refine List.map_congr_left (fun k hk => ?_)
          have hk0 : k ≠ k0 := by
            intro h
            exact (newFirsts_not_seen ks _ k hk) (h ▸ hm)
          rw [List.count_cons_of_ne hk0 ks]
      · have hget : dictGet d k0 = none := (dictGet_eq_none d k0).mpr hm
        have hset : bump d k0 = d ++ [(k0, 1)] := by
          rw [bump, dictGetD, hget, Option.getD_none, dictSet_of_not_mem d k0 _ hm]
        have hkeys : (bump d k0).map Prod.fst = d.map Prod.fst ++ [k0] := by
          rw [hset, List.map_append]
          rfl
        have hnd' : ((bump d k0).map Prod.fst).Nodup := by
          rw [hkeys]
          simp [List.nodup_append, hnd, hm]
        have hrec := foldl_bump_eq ks (bump d k0) hnd'
        rw [hrec, hkeys, hset, newFirsts, if_neg hm]
        rw [List.map_append]
        rw [List.append_assoc]
        congr 1
        · refine List.map_congr_left (fun e he => ?_)
          have hek : e.1 ≠ k0 := by
            intro h
            exact hm (h ▸ List.mem_map.mpr ⟨e, he, rfl⟩)
          rw [List.count_cons_of_ne hek ks]
        · have hseen : newFirsts (d.map Prod.fst ++ [k0]) ks =
              newFirsts (k0 :: d.map Prod.fst) ks :=
            newFirsts_congr ks _ _ (fun q => by simp [or_comm])
          rw [hseen]
          simp only [List.map_cons, List.singleton_append, List.map]
          congr 1
          · rw [List.count_cons_self]
            congr 1
            omega
          · refine List.map_congr_left (fun k hk => ?_)
            have hk0 : k ≠ k0 := by
              intro h
              exact (newFirsts_not_seen ks _ k hk) (h ▸ List.mem_cons_self k0 _)
            rw [List.count_cons_of_ne hk0 ks]

lemma foldl_bump_spec (ks : List String) :
    ks.foldl bump [] = specCounts ks := by
  rw [foldl_bump_eq ks [] (by simp), specCounts]
  simp

lemma stats_foldl_split : ∀ (msgs : List ChatMessage)
    (pd sd : List (String × Nat)) (tw : Nat),
    msgs.foldl
      (fun (st : List (String × Nat) × List (String × Nat) × Nat) msg =>
        (bump st.1 msg.platform, bump st.2.1 msg.sender,
          st.2.2 + metaWordCount msg))
      (pd, sd, tw) =
      ((msgs.map (fun m => m.platform)).foldl bump pd,
       (msgs.map (fun m => m.sender)).foldl bump sd,
       tw + (msgs.map metaWordCount).sum)
  | [], pd, sd, tw => by simp
  | m :: msgs, pd, sd, tw => by
      rw [List.foldl_cons, stats_foldl_split msgs]
      simp [Nat.add_assoc]

end CountLemmas

/-- The three messages of the specification's worked example. -/
def msgHi : ChatMessage := ⟨"hi", "A", "p1", []⟩

/-- Second example message. -/
def msgYo : ChatMessage := ⟨"yo", "B", "p1", []⟩

/-- Third example message. -/
def msgSup : ChatMessage := ⟨"sup", "A", "p2", []⟩

/-- The processor state after processing the three example messages in
order on a fresh processor. -/
def procEx : MessageProcessor :=
  (((MessageProcessor.new.process_message msgHi).2.process_message
    msgYo).2.process_message msgSup).2

/-- A message stored under platform `"x"`. -/
def msgX : ChatMessage := ⟨"from x", "S", "x", []⟩

/-- A message stored under the empty-string platform. -/
def msgBlank : ChatMessage := ⟨"no platform", "S", "", []⟩

/-- C2: `process_message` returns an analysis whose `word_count` is the
number of whitespace-delimited tokens of the content, whose `char_count`
is the content's length, and whose `has_question` holds exactly when the
content contains a `'?'` character; it writes the analysis into the
message's metadata under `"analysis"`, hands that same message to the
store's `add_message`, and returns the analysis; on content `"Hello?"` it
yields `word_count = 1`, `char_count = 6`, `has_question = true`. -/
theorem C2_process_message_analysis (proc : MessageProcessor) (msg : ChatMessage) :
    (proc.process_message msg).1.word_count = (pySplit msg.content).length ∧
    (proc.process_message msg).1.char_count = msg.content.length ∧
    ((proc.process_message msg).1.has_question = true ↔ '?' ∈ msg.content.data) ∧
    dictGet (msg.add_metadata "analysis" (proc.process_message msg).1).metadata
      "analysis" = some (proc.process_message msg).1 ∧
    (proc.process_message msg).2.store =
      proc.store.add_message (msg.add_metadata "analysis" (proc.process_message msg).1) ∧
    (MessageProcessor.new.process_message
      { content := "Hello?", sender := "User", platform := "chatgpt",
        metadata := [] }).1 =
      { word_count := 1, char_count := 6, has_question := true } :=
  ⟨rfl, rfl, pyStrIn_question msg.content,
    dictGet_dictSet_self msg.metadata "analysis" (proc.process_message msg).1,
    rfl, by decide⟩

/-- C3: without a platform filter and for every positive `limit`,
`get_messages` returns the last `min(N, limit)` messages of the global
sequence in arrival order, and all of them when `limit` exceeds the
count. -/
theorem C3_get_messages_window (s : MessageStore) (limit : Int) (h : 0 < limit) :
    s.get_messages none limit =
      s.messages.drop (s.messages.length - limit.toNat) ∧
    (s.get_messages none limit).length = min s.messages.length limit.toNat ∧
    ((s.messages.length : Int) ≤ limit → s.get_messages none limit = s.messages) := by
  have hg : s.get_messages none limit = pySliceFrom s.messages (-limit) := rfl
  refine ⟨by rw [hg, pySliceFrom_neg s.messages limit h], ?_, ?_⟩
  · rw [hg, pySliceFrom_neg s.messages limit h, List.length_drop]
    omega
  · intro hle
    rw [hg, pySliceFrom_neg s.messages limit h]
    have h0 : s.messages.length - limit.toNat = 0 := by omega
    rw [h0, List.drop_zero]

/-- Witness for C3 at the three-message example store with limits 2 and
10. -/
theorem C3_get_messages_window_witness :
    (0 : Int) < 2 ∧
    (buildStore [msgHi, msgYo, msgSup]).get_messages none 2 = [msgYo, msgSup] ∧
    ((buildStore [msgHi, msgYo, msgSup]).messages.length : Int) ≤ 10 ∧
    (buildStore [msgHi, msgYo, msgSup]).get_messages none 10 =
      [msgHi, msgYo, msgSup] :=
  ⟨by decide,
   ((C3_get_messages_window (buildStore [msgHi, msgYo, msgSup]) 2
      (by decide)).1).trans (by decide),
   by decide,
   ((C3_get_messages_window (buildStore [msgHi, msgYo, msgSup]) 10
      (by decide)).2.2 (by decide)).trans (by decide)⟩

/-- C4: with a platform filter `P` (non-empty string) and a positive
`limit`, `get_messages` on a store built by `add_message` calls returns
the subsequence of messages with that platform, in arrival order,
windowed to the last `limit`; an unseen platform yields the empty list,
not an error. -/
theorem C4_get_messages_by_platform (msgs : List ChatMessage) (p : String)
    (limit : Int) (hp : p ≠ "") (hl : 0 < limit) :
    (buildStore msgs).get_messages (some p) limit =
      (msgs.filter (fun m => m.platform = p)).drop
        ((msgs.filter (fun m => m.platform = p)).length - limit.toNat) ∧
    ((∀ m ∈ msgs, m.platform ≠ p) →
      (buildStore msgs).get_messages (some p) limit = []) := by
  have hsel : (buildStore msgs).get_messages (some p) limit =
      pySliceFrom (msgs.filter (fun m => m.platform = p)) (-limit) := by
    simp only [MessageStore.get_messages]
    rw [if_neg hp, buildStore_platforms_get]
  constructor
  · rw [hsel, pySliceFrom_neg _ limit hl]
  · intro hnone
    have hfil : msgs.filter (fun m => m.platform = p) = [] := by
      rw [List.filter_eq_nil_iff]
      intro m hm
      simpa using hnone m hm
    rw [hsel, hfil, pySliceFrom_nil]

/-- Witness for C4: platform `"p1"` of the example store gives its two
messages; never-seen platform `"zzz"` gives `[]`. -/
theorem C4_get_messages_by_platform_witness :
    ("p1" ≠ "" ∧ (0 : Int) < 10) ∧
    (buildStore [msgHi, msgYo, msgSup]).get_messages (some "p1") 10 =
      [msgHi, msgYo] ∧
    (buildStore [msgHi, msgYo, msgSup]).get_messages (some "zzz") 10 = [] :=
  ⟨⟨by decide, by decide⟩,
   ((C4_get_messages_by_platform [msgHi, msgYo, msgSup] "p1" 10
      (by decide) (by decide)).1).trans (by decide),
   (C4_get_messages_by_platform [msgHi, msgYo, msgSup] "zzz" 10
      (by decide) (by decide)).2 (by decide)⟩

/-- C5: `search_messages` returns exactly the stored messages whose
content contains the keyword case-insensitively (a contiguous substring
after lower-casing both sides), and no others, in arrival order over the
full global sequence, with no limit applied. -/
theorem C5_search_messages_spec (s : MessageStore) (kw : String) :
    s.search_messages kw =
      s.messages.filter (fun msg => pyStrIn (pyLower kw) (pyLower msg.content)) ∧
    (s.search_messages kw).Sublist s.messages ∧
    (∀ m, m ∈ s.search_messages kw ↔
      m ∈ s.messages ∧
        ∃ pre post, (pyLower m.content).data =
          pre ++ (pyLower kw).data ++ post) := by
  refine ⟨rfl, List.filter_sublist s.messages, fun m => ?_⟩
  rw [MessageStore.search_messages, List.mem_filter]
  constructor
  · rintro ⟨hm, hp⟩
    exact ⟨hm, (pyIn_iff (pyLower kw).data (pyLower m.content).data).mp hp⟩
  · rintro ⟨hm, hex⟩
    exact ⟨hm, (pyIn_iff (pyLower kw).data (pyLower m.content).data).mpr hex⟩

/-- Witness for C5: searching `"HI"` in the example store finds exactly
the message with content `"hi"`. -/
theorem C5_search_messages_spec_witness :
    (buildStore [msgHi, msgYo, msgSup]).search_messages "HI" = [msgHi] :=
  ((C5_search_messages_spec (buildStore [msgHi, msgYo, msgSup]) "HI").1).trans
    (by decide)

/-- C6: on an empty store, `get_conversation_stats` returns exactly the
one-entry mapping `{"message_count": 0}`; the average-word-count division
sits in the non-empty branch, which is not taken. -/
theorem C6_stats_empty_store (p : MessageProcessor)
    (h : p.store.messages = []) :
    p.get_conversation_stats = [("message_count", StatValue.nat 0)] := by
  have hw : p.store.get_messages none 10 = [] := by
    show pySliceFrom p.store.messages (-(10 : Int)) = []
    rw [h, pySliceFrom_nil]
  simp only [MessageProcessor.get_conversation_stats]
  rw [if_pos hw]

/-- Witness for C6 at a freshly constructed processor. -/
theorem C6_stats_empty_store_witness :
    MessageProcessor.new.store.messages = [] ∧
    MessageProcessor.new.get_conversation_stats =
      [("message_count", StatValue.nat 0)] :=
  ⟨rfl, C6_stats_empty_store MessageProcessor.new rfl⟩

/-- C7: for every store reachable by `add_message` calls from a fresh
store, the global sequence is the messages in arrival order, the
sub-sequence stored for platform `P` is exactly the order-preserving
subsequence of global messages whose platform is `P`, and a message
occurrence belongs to a platform sub-sequence exactly when it is a global
message of that platform. -/
theorem C7_store_invariant (msgs : List ChatMessage) :
    (buildStore msgs).messages = msgs ∧
    (∀ p, dictGetD (buildStore msgs).platforms p [] =
      msgs.filter (fun m => m.platform = p)) ∧
    (∀ p, (dictGetD (buildStore msgs).platforms p []).Sublist msgs) ∧
    (∀ p m, m ∈ dictGetD (buildStore msgs).platforms p [] ↔
      m ∈ msgs ∧ m.platform = p) := by
  refine ⟨buildStore_messages msgs, fun p => buildStore_platforms_get msgs p,
    fun p => ?_, fun p m => ?_⟩
  · rw [buildStore_platforms_get]
    exact List.filter_sublist msgs
  · rw [buildStore_platforms_get, List.mem_filter]
    simp

/-- Witness for C7 at the three-message example store. -/
theorem C7_store_invariant_witness :
    (buildStore [msgHi, msgYo, msgSup]).messages = [msgHi, msgYo, msgSup] ∧
    dictGetD (buildStore [msgHi, msgYo, msgSup]).platforms "p1" [] =
      [msgHi, msgYo] :=
  ⟨(C7_store_invariant [msgHi, msgYo, msgSup]).1,
   ((C7_store_invariant [msgHi, msgYo, msgSup]).2.1 "p1").trans (by decide)⟩

/-- C8: `get_messages` and `search_messages` are read-only and
idempotent: as state transformers they leave the store unchanged, and a
repeated call on the post-state returns the same result. -/
theorem C8_reads_are_pure (s : MessageStore) (platform : Option String)
    (limit : Int) (kw : String) :
    (s.get_messages_call platform limit).2 = s ∧
    (s.search_messages_call kw).2 = s ∧
    ((s.get_messages_call platform limit).2.get_messages_call platform limit).1 =
      (s.get_messages_call platform limit).1 ∧
    ((s.search_messages_call kw).2.search_messages_call kw).1 =
      (s.search_messages_call kw).1 :=
  ⟨rfl, rfl, rfl, rfl⟩

/-- Witness for C8 at a concrete store. -/
theorem C8_reads_are_pure_witness :
    ((buildStore [msgHi]).get_messages_call none 10).2 = buildStore [msgHi] :=
  (C8_reads_are_pure (buildStore [msgHi]) none 10 "hi").1

/-- C9: `get_messages` with `limit = 0` returns the entire selected
sequence (the whole global list, or the whole platform sub-sequence),
because the Python slice `messages[-0:]` degenerates to the full list. -/
theorem C9_limit_zero_full (s : MessageStore) :
    s.get_messages none 0 = s.messages ∧
    ∀ p, p ≠ "" → s.get_messages (some p) 0 = dictGetD s.platforms p [] := by
  constructor
  · show pySliceFrom s.messages (-(0 : Int)) = s.messages
    rw [neg_zero, pySliceFrom_zero]
  · intro p hp
    show pySliceFrom (if p = "" then s.messages else dictGetD s.platforms p [])
      (-(0 : Int)) = dictGetD s.platforms p []
    rw [if_neg hp, neg_zero, pySliceFrom_zero]

/-- Witness for C9: with three stored messages, `limit = 0` returns all
three (not the empty list), and likewise the full platform
sub-sequence. -/
theorem C9_limit_zero_full_witness :
    (buildStore [msgHi, msgYo, msgSup]).get_messages none 0 =
      [msgHi, msgYo, msgSup] ∧
    "p1" ≠ "" ∧
    (buildStore [msgHi, msgYo, msgSup]).get_messages (some "p1") 0 =
      [msgHi, msgYo] :=
  ⟨((C9_limit_zero_full (buildStore [msgHi, msgYo, msgSup])).1).trans (by decide),
   by decide,
   (((C9_limit_zero_full (buildStore [msgHi, msgYo, msgSup])).2 "p1")
      (by decide)).trans (by decide)⟩

/-- C10: passing `platform = ""` is treated like passing no platform at
all (Python's `if platform:` is false on the empty string), returning the
windowed global sequence — even when a dedicated sub-sequence for the
empty-string platform exists, as the concrete store here shows. -/
theorem C10_empty_platform_is_unfiltered (s : MessageStore) (limit : Int) :
    s.get_messages (some "") limit = s.get_messages none limit ∧
    (buildStore [msgX, msgBlank]).get_messages (some "") 10 =
      [msgX, msgBlank] ∧
    dictGetD (buildStore [msgX, msgBlank]).platforms "" [] = [msgBlank] :=
  ⟨rfl, by decide, by decide⟩

/-- Witness for C10 at the mixed-platform store. -/
theorem C10_empty_platform_is_unfiltered_witness :
    (buildStore [msgX, msgBlank]).get_messages (some "") 10 =
      [msgX, msgBlank] :=
  (C10_empty_platform_is_unfiltered (buildStore [msgX, msgBlank]) 10).2.1

/-- C1: `get_conversation_stats` computes its statistics only over the
window returned by the store's default retrieval (`get_messages()` with
its default limit of 10, i.e. the most recently stored 10 messages, not
the entire history): when that window `w` is non-empty the result is the
four-entry mapping with `message_count = w.length`, `platform_counts` the
per-platform occurrence counts over `w` keyed in order of first
occurrence, `sender_counts` likewise keyed by sender, and
`avg_word_count` the exact (non-integer) division of the sum of the
messages' stored `analysis.word_count` values (0 when absent) by
`message_count`. -/
theorem C1_stats_over_default_window (p : MessageProcessor)
    (h : p.store.get_messages none 10 ≠ []) :
    p.get_conversation_stats =
      [("message_count",
        StatValue.nat (p.store.get_messages none 10).length),
       ("platform_counts", StatValue.counts
         (specCounts ((p.store.get_messages none 10).map (fun m => m.platform)))),
       ("sender_counts", StatValue.counts
         (specCounts ((p.store.get_messages none 10).map (fun m => m.sender)))),
       ("avg_word_count", StatValue.rat
         ((((p.store.get_messages none 10).map metaWordCount).sum : Rat) /
           (((p.store.get_messages none 10).length : Nat) : Rat)))] := by
  simp only [MessageProcessor.get_conversation_stats]
  rw [if_neg h, stats_foldl_split, foldl_bump_spec, foldl_bump_spec]
  simp only [List.foldl_map]
  norm_num

/-- Witness for C1: the three example messages processed in order yield
exactly the statistics mapping claimed by the specification. -/
theorem C1_stats_over_default_window_witness :
    procEx.store.get_messages none 10 ≠ [] ∧
    procEx.get_conversation_stats =
      [("message_count", StatValue.nat 3),
       ("platform_counts", StatValue.counts [("p1", 2), ("p2", 1)]),
       ("sender_counts", StatValue.counts [("A", 2), ("B", 1)]),
       ("avg_word_count", StatValue.rat 1)] :=
  ⟨by decide, by
    rw [C1_stats_over_default_window procEx (by decide)]
    have h2 : specCounts ((procEx.store.get_messages none 10).map
        (fun m => m.platform)) = [("p1", 2), ("p2", 1)] := by decide
    have h3 : specCounts ((procEx.store.get_messages none 10).map
        (fun m => m.sender)) = [("A", 2), ("B", 1)] := by decide
    have h4 : ((procEx.store.get_messages none 10).map metaWordCount).sum = 3 := by
      decide
    have h5 : (procEx.store.get_messages none 10).length = 3 := by decide
    rw [h2, h3, h4, h5]
    norm_num⟩

/-- Witness for C2 at the `"Hello?"` example message. -/
theorem C2_process_message_analysis_witness :
    (MessageProcessor.new.process_message
      { content := "Hello?", sender := "User", platform := "chatgpt",
        metadata := [] }).1 =
      { word_count := 1, char_count := 6, has_question := true } :=
  (C2_process_message_analysis MessageProcessor.new
    { content := "Hello?", sender := "User", platform := "chatgpt",
      metadata := [] }).2.2.2.2.2

/-- Counterexample to C3 as stated for arbitrary `limit`: with three
stored messages and `limit = 0`, the code returns all three messages,
not the last `min(N, 0) = 0` (i.e. not the empty list). -/
theorem C3_counterexample_limit_zero :
    (buildStore [msgHi, msgYo, msgSup]).get_messages none 0 ≠ [] ∧
    min (buildStore [msgHi, msgYo, msgSup]).messages.length (0 : Int).toNat = 0 :=
  ⟨by decide, by decide⟩

/-- Counterexample to C4 as stated for arbitrary platform `P`: at
`P = ""` (with the default limit 10) the code ignores the filter and
returns the global sequence, not the windowed sub-sequence of messages
whose platform is `""`. -/
theorem C4_counterexample_empty_platform :
    (buildStore [msgX, msgBlank]).get_messages (some "") 10 ≠
      (([msgX, msgBlank].filter (fun m => m.platform = "")).drop
        (([msgX, msgBlank].filter (fun m => m.platform = "")).length -
          (10 : Int).toNat)) := by
  decide
